import Mathlib

/-!
# http-auth: the gRPC gateway of `main.go`

A shallow embedding of `gRPCHundler` (src/main.go): the incoming-header matcher
installed with `runtime.WithIncomingHeaderMatcher`, the dial options and the
start-up sequence (register, then serve).

Header names are Go strings; a `String` here stands for a Go string that is
valid UTF-8, its characters being the runes `range` yields.
-/

namespace HttpAuth

/-! ## Go standard library: `strings.ToLower` -/

/-- The constant `unicode.MaxASCII`. -/
def MaxASCII : Nat := 0x7F

/-- The constant `utf8.RuneSelf`: bytes below it are single-byte runes. -/
def RuneSelf : Nat := 0x80

/-- The test `'A' <= c && c <= 'Z'`. -/
def isUpperASCII (c : Char) : Bool := 'A'.toNat ≤ c.toNat && c.toNat ≤ 'Z'.toNat

/-- The test `'a' <= c && c <= 'z'`. -/
def isLowerASCII (c : Char) : Bool := 'a'.toNat ≤ c.toNat && c.toNat ≤ 'z'.toNat

/-- The step `c += 'a' - 'A'` applied to the upper-case ASCII letters only. -/
def lowerASCII (c : Char) : Char :=
  if isUpperASCII c then Char.ofNat (c.toNat + ('a'.toNat - 'A'.toNat)) else c

/-- Go `unicode.ToLower(r)`: ASCII runes are handled inline; above `MaxASCII`
the result is `unicode.To(unicode.LowerCase, r)`, a lookup in the Unicode case
tables, which is the parameter `lowerCase`. -/
def unicodeToLower (lowerCase : Char → Char) (r : Char) : Char :=
  if r.toNat ≤ MaxASCII then lowerASCII r else lowerCase r

/-- Go `strings.ToLower(s)`: an ASCII-only string takes the byte loop (returned
as is when it has no upper-case letter), any other string is mapped rune by
rune with `unicode.ToLower`. -/
def ToLower (lowerCase : Char → Char) (s : String) : String :=
  let isASCII := s.data.all (fun c => decide (c.toNat < RuneSelf))
  let hasUpper := s.data.any isUpperASCII
  if isASCII then
    if !hasUpper then s else String.mk (s.data.map lowerASCII)
  else String.mk (s.data.map (unicodeToLower lowerCase))

/-! ## The incoming-header matcher (main.go, lines 23-31) -/

/-- The case list of the `switch k` in the matcher. -/
def whitelist : List String :=
  ["x-real-ip", "x-forwarded-for", "cf-connecting-ip", "x-client-ip"]

/-- The closure passed to `runtime.WithIncomingHeaderMatcher`. The baseline
`runtime.DefaultHeaderMatcher` of the default branch is the parameter
`baseline`; it receives the original `key`. -/
def incomingHeaderMatcher (lowerCase : Char → Char) (baseline : String → String × Bool)
    (key : String) : String × Bool :=
  let k := ToLower lowerCase key
  if k ∈ whitelist then (k, true) else baseline key

/-- Two names are equal up to the case of ASCII letters. -/
def eqUpToCase (a b : String) : Prop :=
  a.data.map Char.toLower = b.data.map Char.toLower

instance (a b : String) : Decidable (eqUpToCase a b) := by
  unfold eqUpToCase; infer_instance

/-! ## The Unicode case tables, as far as the whitelist can see them -/

/-- The entries of Go `unicode.CaseRanges` whose lower-case image is an ASCII
letter: `{0x0130, 0x0130, d{0, -199, 0}}` (LATIN CAPITAL LETTER I WITH DOT
ABOVE, to `i`) and `{0x212A, 0x212A, d{0, -8383, 0}}` (KELVIN SIGN, to `k`).
Every other rune above `MaxASCII` is kept here: its image under the full
tables is again above `MaxASCII`, so it never equals a character of a
whitelist entry. -/
def lowerCaseToASCII (r : Char) : Char :=
  if r.toNat = 0x130 then Char.ofNat (r.toNat - 199)
  else if r.toNat = 0x212A then Char.ofNat (r.toNat - 8383)
  else r

/-! ## The baseline matcher: Go `net/textproto` and grpc-gateway v2 `runtime` -/

/-- The punctuation that `textproto.validHeaderFieldByte` accepts besides
letters and digits, by code: ! # $ % & (apostrophe) * + - . ^ _ (grave) | ~ -/
def tokenPunctuation : List Nat :=
  [33, 35, 36, 37, 38, 39, 42, 43, 45, 46, 94, 95, 96, 124, 126]

/-- Go `textproto.validHeaderFieldByte`: the token characters of RFC 7230.
No byte of a rune above `MaxASCII` is one. -/
def validHeaderFieldByte (c : Char) : Bool :=
  ('0'.toNat ≤ c.toNat && c.toNat ≤ '9'.toNat) || isLowerASCII c || isUpperASCII c
    || decide (c.toNat ∈ tokenPunctuation)

/-- One step of the loop of Go `textproto.canonicalMIMEHeaderKey`: with `upper`
set a lower-case letter is raised (`c -= toLower`), without it an upper-case
letter is lowered (`c += toLower`), where `toLower = 'a' - 'A'`. -/
def canonicalByte (upper : Bool) (c : Char) : Char :=
  if upper && isLowerASCII c then Char.ofNat (c.toNat - ('a'.toNat - 'A'.toNat))
  else if !upper && isUpperASCII c then Char.ofNat (c.toNat + ('a'.toNat - 'A'.toNat))
  else c

/-- The loop of Go `textproto.canonicalMIMEHeaderKey`: upper case for the
first letter and for a letter after a hyphen (`upper = c == '-'`), lower case
for the others. -/
def canonicalLoop : Bool → List Char → List Char
  | _, [] => []
  | upper, c :: cs =>
    let c1 := canonicalByte upper c
    c1 :: canonicalLoop (c1 == '-') cs

/-- Go `textproto.CanonicalMIMEHeaderKey`: a key that holds a space or another
invalid header field byte is returned without modification, any other key in
canonical case. -/
def CanonicalMIMEHeaderKey (s : String) : String :=
  if s.data.all validHeaderFieldByte then String.mk (canonicalLoop true s.data) else s

/-- The constant `runtime.MetadataHeaderPrefix`. -/
def MetadataHeaderPrefix : String := "Grpc-Metadata-"

/-- The constant `runtime.MetadataPrefix`. -/
def MetadataPrefix : String := "grpcgateway-"

/-- The case list of `runtime.isPermanentHTTPHeader`. -/
def permanentHTTPHeaders : List String :=
  ["Accept", "Accept-Charset", "Accept-Language", "Accept-Ranges", "Authorization",
   "Cache-Control", "Content-Type", "Cookie", "Date", "Expect", "From", "Host",
   "If-Match", "If-Modified-Since", "If-None-Match", "If-Schedule-Tag-Match",
   "If-Unmodified-Since", "Max-Forwards", "Origin", "Pragma", "Referer",
   "User-Agent", "Via", "Warning"]

/-- The function `runtime.isPermanentHTTPHeader`. -/
def isPermanentHTTPHeader (hdr : String) : Bool := decide (hdr ∈ permanentHTTPHeaders)

/-- The function `runtime.DefaultHeaderMatcher` of grpc-gateway v2 (releases up
to v2.30.0): the key is put in canonical case; a permanent HTTP header is
forwarded under the `grpcgateway-` prefix, a key starting with
`Grpc-Metadata-` without that prefix, nothing else. -/
def DefaultHeaderMatcher (key : String) : String × Bool :=
  let key := CanonicalMIMEHeaderKey key
  if isPermanentHTTPHeader key then (MetadataPrefix ++ key, true)
  else if MetadataHeaderPrefix.data.isPrefixOf key.data then
    (String.mk (key.data.drop MetadataHeaderPrefix.data.length), true)
  else ("", false)

/-- The function `runtime.DefaultHeaderMatcher` as later releases of
grpc-gateway v2 have it: a `Grpc-Metadata-` key whose remainder is reserved
(it would land in the `grpcgateway-` namespace) is refused. The test on the
remainder is the parameter `reserved`; with `fun _ => false` this is
`DefaultHeaderMatcher`. -/
def DefaultHeaderMatcherWith (reserved : String → Bool) (key : String) : String × Bool :=
  let key := CanonicalMIMEHeaderKey key
  if isPermanentHTTPHeader key then (MetadataPrefix ++ key, true)
  else if MetadataHeaderPrefix.data.isPrefixOf key.data then
    let stripped := String.mk (key.data.drop MetadataHeaderPrefix.data.length)
    if reserved stripped then ("", false) else (stripped, true)
  else ("", false)

/-- No rune of the name above `MaxASCII` is lowered by the case tables to an
ASCII character. Every ASCII-only name, so every valid header name, is such. -/
def noASCIIAlias (lowerCase : Char → Char) (key : String) : Prop :=
  ∀ c ∈ key.data, MaxASCII < c.toNat → MaxASCII < (lowerCase c).toNat

instance (lowerCase : Char → Char) (key : String) :
    Decidable (noASCIIAlias lowerCase key) := by
  unfold noASCIIAlias; infer_instance

/-- A header name made of valid header field bytes only (an HTTP token). -/
def validHeaderName (s : String) : Prop := s.data.all validHeaderFieldByte = true

instance (s : String) : Decidable (validHeaderName s) := by
  unfold validHeaderName; infer_instance

/-- The name reaches the whitelist case of the `switch`. -/
def takesWhitelistBranch (lowerCase : Char → Char) (key : String) : Prop :=
  ToLower lowerCase key ∈ whitelist

instance (lowerCase : Char → Char) (key : String) :
    Decidable (takesWhitelistBranch lowerCase key) := by
  unfold takesWhitelistBranch; infer_instance

/-- A character of the input against the character of a whitelist entry at
the same place: equal up to ASCII letter case, or a rune above `MaxASCII` that
the case tables send to it. -/
def lowersTo (lowerCase : Char → Char) (c d : Char) : Prop :=
  (c.toNat ≤ MaxASCII ∧ c.toLower = d) ∨ (MaxASCII < c.toNat ∧ lowerCase c = d)

/-! ## The error status of the mux: grpc-gateway v2 `runtime.HTTPStatusFromCode` -/

/-! The gRPC status codes (`google.golang.org/grpc/codes.Code`, a `uint32`)
are natural numbers here. -/

def Code.OK : Nat := 0
def Code.Canceled : Nat := 1
def Code.Unknown : Nat := 2
def Code.InvalidArgument : Nat := 3
def Code.DeadlineExceeded : Nat := 4
def Code.NotFound : Nat := 5
def Code.AlreadyExists : Nat := 6
def Code.PermissionDenied : Nat := 7
def Code.ResourceExhausted : Nat := 8
def Code.FailedPrecondition : Nat := 9
def Code.Aborted : Nat := 10
def Code.OutOfRange : Nat := 11
def Code.Unimplemented : Nat := 12
def Code.Internal : Nat := 13
def Code.Unavailable : Nat := 14
def Code.DataLoss : Nat := 15
def Code.Unauthenticated : Nat := 16

/-- The function `runtime.HTTPStatusFromCode`, which the default error handler
of a `ServeMux` (`runtime.DefaultHTTPErrorHandler`) applies to the code of the
RPC error. -/
def HTTPStatusFromCode (code : Nat) : Nat :=
  match code with
  | 0 => 200   -- OK
  | 1 => 499   -- Canceled
  | 2 => 500   -- Unknown
  | 3 => 400   -- InvalidArgument
  | 4 => 504   -- DeadlineExceeded
  | 5 => 404   -- NotFound
  | 6 => 409   -- AlreadyExists
  | 7 => 403   -- PermissionDenied
  | 8 => 429   -- ResourceExhausted
  | 9 => 400   -- FailedPrecondition
  | 10 => 409  -- Aborted
  | 11 => 400  -- OutOfRange
  | 12 => 501  -- Unimplemented
  | 13 => 500  -- Internal
  | 14 => 503  -- Unavailable
  | 15 => 500  -- DataLoss
  | 16 => 401  -- Unauthenticated
  | _ => 500

/-- The canonical mapping as the specification words it (section 4.4):
eight named codes, every other code 500. -/
def canonicalStatus (code : Nat) : Nat :=
  if code = Code.NotFound then 404
  else if code = Code.InvalidArgument then 400
  else if code = Code.PermissionDenied then 403
  else if code = Code.Unauthenticated then 401
  else if code = Code.Unavailable then 503
  else if code = Code.DeadlineExceeded then 504
  else 500

/-- The fields of `runtime.ServeMux` that the options of `main.go` can reach. -/
structure ServeMux where
  incomingHeaderMatcher : String → String × Bool
  errorStatus : Nat → Nat

/-- The `runtime.ServeMuxOption`s that set those fields. -/
inductive ServeMuxOption where
  | WithIncomingHeaderMatcher (fn : String → String × Bool)
  | WithErrorHandler (status : Nat → Nat)

/-- The function `runtime.NewServeMux`: the defaults, then each option applied
in order. -/
def NewServeMux (opts : List ServeMuxOption) : ServeMux :=
  opts.foldl
    (fun m o =>
      match o with
      | .WithIncomingHeaderMatcher fn => { m with incomingHeaderMatcher := fn }
      | .WithErrorHandler h => { m with errorStatus := h })
    { incomingHeaderMatcher := DefaultHeaderMatcher, errorStatus := HTTPStatusFromCode }

/-! ## `gRPCHundler` (main.go, lines 20-49) -/

/-- Transport credentials of a gRPC dial option: `insecure.NewCredentials()`
or TLS credentials that validate the server certificate. -/
inductive TransportCredentials where
  | insecureNewCredentials
  | tls (serverName : String)
  deriving DecidableEq

/-- The `grpc.DialOption`s that choose the transport security. -/
inductive DialOption where
  | WithTransportCredentials (creds : TransportCredentials)
  deriving DecidableEq

/-- The security modes of the specification (section 4.2). -/
inductive SecurityMode where
  | insecureTransport
  | trustedTransport
  deriving DecidableEq

/-- The mode a dial option selects. -/
def DialOption.mode : DialOption → SecurityMode
  | .WithTransportCredentials .insecureNewCredentials => .insecureTransport
  | .WithTransportCredentials (.tls _) => .trustedTransport

/-- What one run of the process is given from outside: its command line and
environment (the configuration inputs a process has), the error
`sso.RegisterAuthHandlerFromEndpoint` returns (`none` for nil) and the error
`http.ListenAndServe` returns (`none` when it serves without end). -/
structure Env where
  args : List String
  environ : List (String × String)
  registerErr : Option String
  listenErr : Option String

/-- The calls a run makes, in order. -/
inductive Event where
  | registerAuthHandlerFromEndpoint (endpoint : String) (opts : List DialOption)
  | logFatalf (msg : String)
  | println (msg : String)
  | listenAndServe (addr : String)
  | logFatal (msg : String)
  deriving DecidableEq

/-- A run: the calls made and the exit status (`none` while serving). -/
structure Run where
  trace : List Event
  exit : Option Nat
  deriving DecidableEq

/-- The mux built at lines 22-32: `NewServeMux` with the one option
`WithIncomingHeaderMatcher`. -/
def mux (lowerCase : Char → Char) : ServeMux :=
  NewServeMux
    [ServeMuxOption.WithIncomingHeaderMatcher
      (incomingHeaderMatcher lowerCase DefaultHeaderMatcher)]

/-- The slice `opts` of lines 34-36. -/
def opts : List DialOption :=
  [DialOption.WithTransportCredentials TransportCredentials.insecureNewCredentials]

/-- The function `gRPCHundler`: register the handler; on an error `log.Fatalf`
(which exits with status 1); otherwise print, `http.ListenAndServe`, and
`log.Fatal` on whatever it returns. -/
def gRPCHundler (env : Env) : Run :=
  let register := Event.registerAuthHandlerFromEndpoint "localhost:50551" opts
  match env.registerErr with
  | some err =>
    { trace := [register, Event.logFatalf ("err in register endpoint " ++ err)],
      exit := some 1 }
  | none =>
    let started := [register, Event.println "Server start in port 50550",
      Event.listenAndServe ":50550"]
    match env.listenErr with
    | some err => { trace := started ++ [Event.logFatal err], exit := some 1 }
    | none => { trace := started, exit := none }

/-- The run invoked `http.ListenAndServe`. -/
def Run.served (r : Run) : Prop := ∃ addr, Event.listenAndServe addr ∈ r.trace

/-- The dial options of each `RegisterAuthHandlerFromEndpoint` call of a run. -/
def Run.dialOptions (r : Run) : List (List DialOption) :=
  r.trace.filterMap fun e =>
    match e with
    | .registerAuthHandlerFromEndpoint _ o => some o
    | _ => none

/-- Some registration call of the run dials in the given mode. -/
def Run.usesMode (r : Run) (m : SecurityMode) : Prop :=
  ∃ o ∈ r.dialOptions, ∃ d ∈ o, DialOption.mode d = m

/-! ## Lemmas on lower-casing -/

theorem lowerASCII_eq_toLower (c : Char) : lowerASCII c = c.toLower := by
  have h1 : 'A'.toNat = 65 := rfl
  have h2 : 'Z'.toNat = 90 := rfl
  have h3 : 'a'.toNat = 97 := rfl
  unfold lowerASCII isUpperASCII Char.toLower
  by_cases h : 65 ≤ c.toNat ∧ c.toNat ≤ 90
  · simp [h1, h2, h3, h]
  · simp only [h1, h2]
    simp [h]

theorem isUpperASCII_false_toLower (c : Char) (h : isUpperASCII c = false) :
    c.toLower = c := by
  have h1 : 'A'.toNat = 65 := rfl
  have h2 : 'Z'.toNat = 90 := rfl
  unfold isUpperASCII at h
  unfold Char.toLower
  simp only [h1, h2, Bool.and_eq_false_imp, decide_eq_true_eq, decide_eq_false_iff_not] at h
  have : ¬ (c.toNat ≥ 65 ∧ c.toNat ≤ 90) := fun hc => h hc.1 hc.2
  simp [this]

theorem map_toLower_of_no_upper (l : List Char) (h : l.any isUpperASCII = false) :
    l.map Char.toLower = l := by
  induction l with
  | nil => rfl
  | cons c cs ih =>
    simp only [List.any_cons, Bool.or_eq_false_iff] at h
    simp [isUpperASCII_false_toLower c h.1, ih h.2]

/-- On an ASCII-only string `strings.ToLower` lower-cases the ASCII letters,
whatever the Unicode case tables hold. -/
theorem ToLower_of_ascii (lowerCase : Char → Char) (s : String)
    (h : s.data.all (fun c => decide (c.toNat < RuneSelf)) = true) :
    ToLower lowerCase s = String.mk (s.data.map Char.toLower) := by
  unfold ToLower
  simp only [h, if_true]
  by_cases hu : s.data.any isUpperASCII = true
  · simp only [hu, Bool.not_true]
    have : lowerASCII = Char.toLower := funext lowerASCII_eq_toLower
    simp [this]
  · have hu2 : s.data.any isUpperASCII = false := by simpa using hu
    simp only [hu2, Bool.not_false, if_true]
    rw [map_toLower_of_no_upper _ hu2]

theorem toNat_lt_of_toLower_lt (c : Char) (h : c.toLower.toNat < RuneSelf) :
    c.toNat < RuneSelf := by
  unfold Char.toLower at h
  unfold RuneSelf at *
  by_cases hc : c.toNat ≥ 65 ∧ c.toNat ≤ 90
  · omega
  · simpa [hc] using h

theorem all_ascii_of_map_toLower (l : List Char)
    (h : (l.map Char.toLower).all (fun c => decide (c.toNat < RuneSelf)) = true) :
    l.all (fun c => decide (c.toNat < RuneSelf)) = true := by
  induction l with
  | nil => rfl
  | cons c cs ih =>
    simp only [List.map_cons, List.all_cons, Bool.and_eq_true, decide_eq_true_eq] at h ⊢
    exact ⟨toNat_lt_of_toLower_lt c h.1, ih h.2⟩

/-- Every whitelist entry is ASCII-only and already in lower case. -/
theorem whitelist_ascii_lower (e : String) (he : e ∈ whitelist) :
    e.data.all (fun c => decide (c.toNat < RuneSelf)) = true ∧
      e.data.map Char.toLower = e.data := by
  simp only [whitelist, List.mem_cons, List.mem_singleton, List.not_mem_nil, or_false] at he
  rcases he with rfl | rfl | rfl | rfl <;> exact ⟨by decide, by decide⟩

/-- A name equal to a whitelist entry up to ASCII letter case lower-cases to it. -/
theorem ToLower_of_eqUpToCase (lowerCase : Char → Char) (key e : String)
    (he : e ∈ whitelist) (h : eqUpToCase key e) : ToLower lowerCase key = e := by
  obtain ⟨hascii, hlow⟩ := whitelist_ascii_lower e he
  unfold eqUpToCase at h
  rw [hlow] at h
  have hk : key.data.all (fun c => decide (c.toNat < RuneSelf)) = true := by
    apply all_ascii_of_map_toLower
    rw [h]; exact hascii
  rw [ToLower_of_ascii lowerCase key hk, h]

/-! ## Lemmas on the canonical header key -/

theorem toNat_ofNat_add (n : Nat) (h1 : 65 ≤ n) (h2 : n ≤ 90) :
    (Char.ofNat (n + 32)).toNat = n + 32 := by
  interval_cases n <;> rfl

theorem canonicalByte_toLower (upper : Bool) (c : Char) :
    canonicalByte upper c.toLower = canonicalByte upper c := by
  have h1 : 'A'.toNat = 65 := rfl
  have h2 : 'Z'.toNat = 90 := rfl
  have h3 : 'a'.toNat = 97 := rfl
  have h4 : 'z'.toNat = 122 := rfl
  by_cases hc : c.toNat ≥ 65 ∧ c.toNat ≤ 90
  · have hl : c.toLower = Char.ofNat (c.toNat + 32) := by
      unfold Char.toLower; simp [hc]
    have hn : c.toLower.toNat = c.toNat + 32 := by
      rw [hl]; exact toNat_ofNat_add _ hc.1 hc.2
    have u1 : isUpperASCII c = true := by
      unfold isUpperASCII; rw [h1, h2]; simp; omega
    have u2 : isUpperASCII c.toLower = false := by
      unfold isUpperASCII; rw [h1, h2, hn]; simp; omega
    have l1 : isLowerASCII c = false := by
      unfold isLowerASCII; rw [h3, h4]; simp; omega
    have l2 : isLowerASCII c.toLower = true := by
      unfold isLowerASCII; rw [h3, h4, hn]; simp; omega
    have hsub : c.toNat + 32 - (97 - 65) = c.toNat := by omega
    have hadd : c.toNat + (97 - 65) = c.toNat + 32 := by omega
    unfold canonicalByte
    rw [u1, u2, l1, l2, hn, h1, h3, hsub, hadd]
    cases upper
    · simp [hl]
    · simp
  · have hl : c.toLower = c := by
      unfold Char.toLower; simp [hc]
    rw [hl]

theorem canonicalLoop_map_toLower (l : List Char) (upper : Bool) :
    canonicalLoop upper (l.map Char.toLower) = canonicalLoop upper l := by
  induction l generalizing upper with
  | nil => rfl
  | cons c cs ih =>
    simp only [List.map_cons, canonicalLoop, canonicalByte_toLower, ih]

theorem map_unicodeToLower_of_ascii (lowerCase : Char → Char) (l : List Char)
    (h : l.all (fun c => decide (c.toNat < RuneSelf)) = true) :
    l.map (unicodeToLower lowerCase) = l.map Char.toLower := by
  induction l with
  | nil => rfl
  | cons c cs ih =>
    simp only [List.all_cons, Bool.and_eq_true, decide_eq_true_eq] at h
    have hc : c.toNat ≤ MaxASCII := by
      have := h.1
      unfold RuneSelf at this
      unfold MaxASCII
      omega
    simp only [List.map_cons, ih h.2, unicodeToLower, hc, if_true, lowerASCII_eq_toLower]

/-- In every case `strings.ToLower` is the rune-by-rune map of `unicode.ToLower`. -/
theorem ToLower_eq_map (lowerCase : Char → Char) (s : String) :
    ToLower lowerCase s = String.mk (s.data.map (unicodeToLower lowerCase)) := by
  by_cases h : s.data.all (fun c => decide (c.toNat < RuneSelf)) = true
  · rw [ToLower_of_ascii lowerCase s h, map_unicodeToLower_of_ascii lowerCase _ h]
  · unfold ToLower
    simp only [h]
    simp

theorem unicodeToLower_eq_iff (lowerCase : Char → Char) (c d : Char) :
    unicodeToLower lowerCase c = d ↔ lowersTo lowerCase c d := by
  unfold unicodeToLower lowersTo
  by_cases hc : c.toNat ≤ MaxASCII
  · have hn : ¬ MaxASCII < c.toNat := by omega
    simp [hc, hn, lowerASCII_eq_toLower]
  · have hn : MaxASCII < c.toNat := by omega
    simp [hc, hn]

theorem ToLower_eq_iff (lowerCase : Char → Char) (key e : String) :
    ToLower lowerCase key = e ↔ List.Forall₂ (lowersTo lowerCase) key.data e.data := by
  rw [ToLower_eq_map]
  have h1 : String.mk (key.data.map (unicodeToLower lowerCase)) = e ↔
      key.data.map (unicodeToLower lowerCase) = e.data := by
    constructor
    · intro h; rw [← h]
    · intro h; rw [h]
  rw [h1]
  have h2 : ∀ (l m : List Char), l.map (unicodeToLower lowerCase) = m ↔
      List.Forall₂ (lowersTo lowerCase) l m := by
    intro l
    induction l with
    | nil =>
      intro m
      cases m with
      | nil => simp
      | cons d ds => simp
    | cons c cs ih =>
      intro m
      cases m with
      | nil => simp
      | cons d ds =>
        simp only [List.map_cons, List.cons.injEq, List.forall₂_cons, ih ds,
          unicodeToLower_eq_iff]
  exact h2 _ _

theorem ascii_of_validHeaderFieldByte (c : Char) (h : validHeaderFieldByte c = true) :
    c.toNat < RuneSelf := by
  have h0 : '0'.toNat = 48 := rfl
  have h9 : '9'.toNat = 57 := rfl
  have h1 : 'A'.toNat = 65 := rfl
  have h2 : 'Z'.toNat = 90 := rfl
  have h3 : 'a'.toNat = 97 := rfl
  have h4 : 'z'.toNat = 122 := rfl
  unfold validHeaderFieldByte isLowerASCII isUpperASCII tokenPunctuation at h
  rw [h0, h9, h1, h2, h3, h4] at h
  simp only [Bool.or_eq_true, Bool.and_eq_true, decide_eq_true_eq, List.mem_cons,
    List.mem_singleton, List.not_mem_nil, or_false] at h
  unfold RuneSelf
  omega

theorem all_ascii_of_validHeaderName (s : String) (h : validHeaderName s) :
    s.data.all (fun c => decide (c.toNat < RuneSelf)) = true := by
  unfold validHeaderName at h
  rw [List.all_eq_true] at h ⊢
  intro c hc
  exact decide_eq_true (ascii_of_validHeaderFieldByte c (h c hc))

/-- On valid header names the canonical key depends on the name only up to
the case of its letters. -/
theorem CanonicalMIMEHeaderKey_congr (a b : String) (ha : validHeaderName a)
    (hb : validHeaderName b) (hcase : eqUpToCase a b) :
    CanonicalMIMEHeaderKey a = CanonicalMIMEHeaderKey b := by
  unfold validHeaderName at ha hb
  unfold eqUpToCase at hcase
  unfold CanonicalMIMEHeaderKey
  simp only [ha, hb, if_true]
  rw [← canonicalLoop_map_toLower a.data, ← canonicalLoop_map_toLower b.data, hcase]

theorem DefaultHeaderMatcher_congr (a b : String)
    (h : CanonicalMIMEHeaderKey a = CanonicalMIMEHeaderKey b) :
    DefaultHeaderMatcher a = DefaultHeaderMatcher b := by
  unfold DefaultHeaderMatcher
  simp only [h]

theorem DefaultHeaderMatcherWith_congr (reserved : String → Bool) (a b : String)
    (h : CanonicalMIMEHeaderKey a = CanonicalMIMEHeaderKey b) :
    DefaultHeaderMatcherWith reserved a = DefaultHeaderMatcherWith reserved b := by
  unfold DefaultHeaderMatcherWith
  simp only [h]

theorem map_toLower_of_lowersTo (lowerCase : Char → Char) (l : List Char) :
    ∀ m : List Char, List.Forall₂ (lowersTo lowerCase) l m →
      m.all (fun c => decide (c.toNat < RuneSelf)) = true →
      (∀ c ∈ l, MaxASCII < c.toNat → MaxASCII < (lowerCase c).toNat) →
      l.map Char.toLower = m := by
  induction l with
  | nil =>
    intro m h _ _
    cases h
    rfl
  | cons c cs ih =>
    intro m h hm hno
    cases m with
    | nil => cases h
    | cons d ds =>
      rw [List.forall₂_cons] at h
      simp only [List.all_cons, Bool.and_eq_true, decide_eq_true_eq] at hm
      have hrest := ih ds h.2 hm.2 (fun x hx => hno x (List.mem_cons_of_mem _ hx))
      have hhead : c.toLower = d := by
        rcases h.1 with ⟨_, h1⟩ | ⟨h1, h2⟩
        · exact h1
        · have h3 := hno c (List.mem_cons_self _ _) h1
          rw [h2] at h3
          have hd := hm.1
          unfold RuneSelf at hd
          unfold MaxASCII at h3
          omega
      simp only [List.map_cons, hhead, hrest]

/-- A name without an ASCII alias that lower-cases to a whitelist entry equals
that entry up to the case of ASCII letters. -/
theorem eqUpToCase_of_ToLower_mem (lowerCase : Char → Char) (key : String)
    (hno : noASCIIAlias lowerCase key) (hk : ToLower lowerCase key ∈ whitelist) :
    eqUpToCase key (ToLower lowerCase key) := by
  obtain ⟨hascii, hlow⟩ := whitelist_ascii_lower _ hk
  have hf := (ToLower_eq_iff lowerCase key (ToLower lowerCase key)).1 rfl
  unfold eqUpToCase
  rw [hlow]
  exact map_toLower_of_lowersTo lowerCase _ _ hf hascii hno

/-! ## Lemmas on the start-up sequence -/

/-- Every run makes one registration call, with the slice `opts`. -/
theorem gRPCHundler_dialOptions (env : Env) : (gRPCHundler env).dialOptions = [opts] := by
  unfold gRPCHundler Run.dialOptions
  cases env.registerErr with
  | some err => rfl
  | none =>
    cases env.listenErr with
    | some err => rfl
    | none => rfl

/-! ## The header forwarding policy -/

/-- C1: a header name that equals one of x-real-ip, x-forwarded-for,
cf-connecting-ip, x-client-ip up to letter case is forwarded (forward = true)
under the lower-cased name, whatever the baseline matcher and the Unicode
case tables are. -/
theorem whitelisted_any_casing_forwarded (lowerCase : Char → Char)
    (baseline : String → String × Bool) (key e : String)
    (he : e ∈ whitelist) (hcase : eqUpToCase key e) :
    incomingHeaderMatcher lowerCase baseline key = (e, true) ∧
      e = String.mk (key.data.map Char.toLower) := by
  have hk : ToLower lowerCase key = e := ToLower_of_eqUpToCase lowerCase key e he hcase
  refine ⟨?_, ?_⟩
  · unfold incomingHeaderMatcher
    simp only [hk, he, if_true]
  · unfold eqUpToCase at hcase
    rw [hcase, (whitelist_ascii_lower e he).2]

theorem whitelisted_any_casing_forwarded_witness :
    "x-forwarded-for" ∈ whitelist ∧ eqUpToCase "X-Forwarded-FOR" "x-forwarded-for" ∧
      incomingHeaderMatcher lowerCaseToASCII DefaultHeaderMatcher "X-Forwarded-FOR"
        = ("x-forwarded-for", true) :=
  ⟨by decide, by decide,
    (whitelisted_any_casing_forwarded lowerCaseToASCII DefaultHeaderMatcher
      "X-Forwarded-FOR" "x-forwarded-for" (by decide) (by decide)).1⟩

/-- C2, as stated, fails: with U+0130 in place of the two `I` of
`X-Client-IP` the name equals no whitelist entry up to the case of letters
and the baseline matcher does not accept it, and still the matcher forwards
it, as `x-client-ip`. -/
theorem aliased_name_forwarded :
    (∀ e ∈ whitelist, ¬ eqUpToCase "X-Cl\u0130ent-\u0130P" e) ∧
      (DefaultHeaderMatcher "X-Cl\u0130ent-\u0130P").2 = false ∧
      incomingHeaderMatcher lowerCaseToASCII DefaultHeaderMatcher "X-Cl\u0130ent-\u0130P"
        = ("x-client-ip", true) :=
  ⟨by decide, by decide, by decide⟩

/-- C2, amended: a header name that holds no non-ASCII character which
lower-casing maps onto an ASCII character (so every ASCII-only name, hence
every valid header name), that equals no whitelist entry up to the case of
letters and that the baseline matcher does not accept, is not forwarded
(forward = false). -/
theorem not_whitelisted_not_baseline_dropped (lowerCase : Char → Char)
    (baseline : String → String × Bool) (key : String)
    (hno : noASCIIAlias lowerCase key)
    (hw : ∀ e ∈ whitelist, ¬ eqUpToCase key e)
    (hb : (baseline key).2 = false) :
    (incomingHeaderMatcher lowerCase baseline key).2 = false := by
  have hk : ¬ ToLower lowerCase key ∈ whitelist := fun hm =>
    hw _ hm (eqUpToCase_of_ToLower_mem lowerCase key hno hm)
  unfold incomingHeaderMatcher
  simp only [hk, if_false]
  exact hb

theorem not_whitelisted_not_baseline_dropped_witness :
    noASCIIAlias lowerCaseToASCII "X-R\u00e9al-IP" ∧
      (∀ e ∈ whitelist, ¬ eqUpToCase "X-R\u00e9al-IP" e) ∧
      (DefaultHeaderMatcher "X-R\u00e9al-IP").2 = false ∧
      (incomingHeaderMatcher lowerCaseToASCII DefaultHeaderMatcher "X-R\u00e9al-IP").2 = false :=
  ⟨by decide, by decide, by decide,
    not_whitelisted_not_baseline_dropped lowerCaseToASCII DefaultHeaderMatcher
      "X-R\u00e9al-IP" (by decide) (by decide) (by decide)⟩

/-- C4: every header the baseline matcher accepts is forwarded by the policy,
and the forwarded names are exactly the union of the names whose lower-cased
form is a whitelist entry and the names the baseline accepts. -/
theorem forwarded_iff_whitelist_or_baseline (lowerCase : Char → Char)
    (baseline : String → String × Bool) (key : String) :
    ((baseline key).2 = true → (incomingHeaderMatcher lowerCase baseline key).2 = true) ∧
      ((incomingHeaderMatcher lowerCase baseline key).2 = true ↔
        (ToLower lowerCase key ∈ whitelist ∨ (baseline key).2 = true)) := by
  unfold incomingHeaderMatcher
  by_cases hk : ToLower lowerCase key ∈ whitelist
  · simp [hk]
  · simp [hk]

/-- C5: for a header name whose lower-cased form is not one of the four
whitelist entries the matcher returns exactly the pair that the baseline
matcher returns for the original, unmodified name. -/
theorem falls_through_to_baseline (lowerCase : Char → Char)
    (baseline : String → String × Bool) (key : String)
    (hk : ToLower lowerCase key ∉ whitelist) :
    incomingHeaderMatcher lowerCase baseline key = baseline key := by
  unfold incomingHeaderMatcher
  simp only [hk, if_false]

theorem falls_through_to_baseline_witness :
    ToLower lowerCaseToASCII "AUTHORIZATION" ∉ whitelist ∧
      incomingHeaderMatcher lowerCaseToASCII DefaultHeaderMatcher "AUTHORIZATION"
        = DefaultHeaderMatcher "AUTHORIZATION" ∧
      DefaultHeaderMatcher "AUTHORIZATION" = ("grpcgateway-Authorization", true) :=
  ⟨by decide,
    falls_through_to_baseline lowerCaseToASCII DefaultHeaderMatcher "AUTHORIZATION" (by decide),
    by decide⟩

/-- C10: the whitelist branch is idempotent: when the lower-cased form k of a
header name is a whitelist entry, the matcher returns (k, true) for the name,
and applied again to k it returns (k, true) once more. -/
theorem whitelist_branch_idempotent (lowerCase : Char → Char)
    (baseline : String → String × Bool) (key : String)
    (hk : ToLower lowerCase key ∈ whitelist) :
    incomingHeaderMatcher lowerCase baseline key = (ToLower lowerCase key, true) ∧
      incomingHeaderMatcher lowerCase baseline (ToLower lowerCase key)
        = (ToLower lowerCase key, true) := by
  have hfix : ToLower lowerCase (ToLower lowerCase key) = ToLower lowerCase key :=
    ToLower_of_eqUpToCase lowerCase _ _ hk rfl
  refine ⟨?_, ?_⟩
  · unfold incomingHeaderMatcher
    simp only [hk, if_true]
  · unfold incomingHeaderMatcher
    simp only [hfix, hk, if_true]

theorem whitelist_branch_idempotent_witness :
    ToLower lowerCaseToASCII "CF-Connecting-IP" ∈ whitelist ∧
      incomingHeaderMatcher lowerCaseToASCII DefaultHeaderMatcher "CF-Connecting-IP"
        = ("cf-connecting-ip", true) ∧
      incomingHeaderMatcher lowerCaseToASCII DefaultHeaderMatcher "cf-connecting-ip"
        = ("cf-connecting-ip", true) :=
  ⟨by decide,
    whitelist_branch_idempotent lowerCaseToASCII DefaultHeaderMatcher "CF-Connecting-IP"
      (by decide)⟩

/-- C9, as stated, fails: with U+0130 (which `strings.ToLower` sends to `i`)
in place of the `i` of `x-real-ip`, the name takes the whitelist branch and is
forwarded as `x-real-ip`, though it equals no whitelist entry up to the case
of ASCII letters; the baseline matcher alone would drop it. -/
theorem whitelist_branch_not_only_ascii_case :
    takesWhitelistBranch lowerCaseToASCII "x-real-\u0130p" ∧
      incomingHeaderMatcher lowerCaseToASCII DefaultHeaderMatcher "x-real-\u0130p"
        = ("x-real-ip", true) ∧
      (∀ e ∈ whitelist, ¬ eqUpToCase "x-real-\u0130p" e) ∧
      DefaultHeaderMatcher "x-real-\u0130p" = ("", false) :=
  ⟨by decide, by decide, by decide, by decide⟩

/-- C9, amended: a header name takes the whitelist branch (and is returned as
a whitelist entry with forward = true) exactly when it matches an entry
character by character, each character being equal to the entry's up to the
case of ASCII letters, or a rune above MaxASCII that the Unicode case tables
lower to the entry's character. -/
theorem whitelist_branch_iff (lowerCase : Char → Char)
    (baseline : String → String × Bool) (key : String) :
    (takesWhitelistBranch lowerCase key ↔
      ∃ e ∈ whitelist, List.Forall₂ (lowersTo lowerCase) key.data e.data) ∧
    (∀ e ∈ whitelist, List.Forall₂ (lowersTo lowerCase) key.data e.data →
      incomingHeaderMatcher lowerCase baseline key = (e, true)) := by
  refine ⟨?_, ?_⟩
  · unfold takesWhitelistBranch
    constructor
    · intro h
      exact ⟨_, h, (ToLower_eq_iff lowerCase key _).1 rfl⟩
    · rintro ⟨e, he, hf⟩
      rw [(ToLower_eq_iff lowerCase key e).2 hf]
      exact he
  · intro e he hf
    have hk := (ToLower_eq_iff lowerCase key e).2 hf
    unfold incomingHeaderMatcher
    simp only [hk, he, if_true]

/-- C3: header name casing does not affect the forwarding decision: for two
valid header names (HTTP tokens) that differ only in letter case the matcher
returns the same forward boolean, and the same forwarded name, also when both
reach the baseline matcher through the default branch with their original
keys; the baseline puts the key in canonical case first. This holds with
`DefaultHeaderMatcher` and with its later form, whatever remainder that one
reserves. -/
theorem casing_irrelevant_on_valid_names (lowerCase : Char → Char) (a b : String)
    (ha : validHeaderName a) (hb : validHeaderName b) (hcase : eqUpToCase a b) :
    (incomingHeaderMatcher lowerCase DefaultHeaderMatcher a).2
        = (incomingHeaderMatcher lowerCase DefaultHeaderMatcher b).2 ∧
      incomingHeaderMatcher lowerCase DefaultHeaderMatcher a
        = incomingHeaderMatcher lowerCase DefaultHeaderMatcher b ∧
      ∀ reserved : String → Bool,
        incomingHeaderMatcher lowerCase (DefaultHeaderMatcherWith reserved) a
          = incomingHeaderMatcher lowerCase (DefaultHeaderMatcherWith reserved) b := by
  have hl : ToLower lowerCase a = ToLower lowerCase b := by
    rw [ToLower_of_ascii lowerCase a (all_ascii_of_validHeaderName a ha),
      ToLower_of_ascii lowerCase b (all_ascii_of_validHeaderName b hb)]
    unfold eqUpToCase at hcase
    rw [hcase]
  have hc := CanonicalMIMEHeaderKey_congr a b ha hb hcase
  have hd : DefaultHeaderMatcher a = DefaultHeaderMatcher b :=
    DefaultHeaderMatcher_congr a b hc
  have hfull : incomingHeaderMatcher lowerCase DefaultHeaderMatcher a
      = incomingHeaderMatcher lowerCase DefaultHeaderMatcher b := by
    unfold incomingHeaderMatcher
    simp only [hl, hd]
  refine ⟨by rw [hfull], hfull, ?_⟩
  intro reserved
  have hw := DefaultHeaderMatcherWith_congr reserved a b hc
  unfold incomingHeaderMatcher
  simp only [hl, hw]

theorem casing_irrelevant_on_valid_names_witness :
    validHeaderName "grpc-metadata-trace-id" ∧ validHeaderName "GRPC-Metadata-Trace-ID" ∧
      eqUpToCase "grpc-metadata-trace-id" "GRPC-Metadata-Trace-ID" ∧
      (incomingHeaderMatcher lowerCaseToASCII DefaultHeaderMatcher "grpc-metadata-trace-id").2
        = (incomingHeaderMatcher lowerCaseToASCII DefaultHeaderMatcher
            "GRPC-Metadata-Trace-ID").2 ∧
      incomingHeaderMatcher lowerCaseToASCII DefaultHeaderMatcher "grpc-metadata-trace-id"
        = ("Trace-Id", true) ∧
      incomingHeaderMatcher lowerCaseToASCII DefaultHeaderMatcher "GRPC-Metadata-Trace-ID"
        = ("Trace-Id", true) :=
  ⟨by decide, by decide, by decide,
    (casing_irrelevant_on_valid_names lowerCaseToASCII "grpc-metadata-trace-id"
      "GRPC-Metadata-Trace-ID" (by decide) (by decide) (by decide)).1,
    by decide, by decide⟩

/-! ## Start-up: registration, then serving -/

/-- C6: in every run in which `sso.RegisterAuthHandlerFromEndpoint` returns an
error, the run ends in `log.Fatalf` with exit status 1 right after the
registration call, and `http.ListenAndServe` is never invoked. -/
theorem no_serving_after_failed_registration (env : Env) (err : String)
    (h : env.registerErr = some err) :
    (gRPCHundler env).exit = some 1 ∧
      (gRPCHundler env).trace.getLast? = some (Event.logFatalf ("err in register endpoint " ++ err)) ∧
      ¬ (gRPCHundler env).served := by
  have hr : gRPCHundler env =
      { trace := [Event.registerAuthHandlerFromEndpoint "localhost:50551" opts,
          Event.logFatalf ("err in register endpoint " ++ err)],
        exit := some 1 } := by
    unfold gRPCHundler
    rw [h]
  rw [hr]
  refine ⟨rfl, rfl, ?_⟩
  rintro ⟨addr, hmem⟩
  simp at hmem

theorem no_serving_after_failed_registration_witness :
    (gRPCHundler ⟨[], [], some "connection refused", none⟩).exit = some 1 ∧
      (gRPCHundler ⟨[], [], some "connection refused", none⟩).trace.getLast?
        = some (Event.logFatalf ("err in register endpoint " ++ "connection refused")) ∧
      ¬ (gRPCHundler ⟨[], [], some "connection refused", none⟩).served :=
  no_serving_after_failed_registration ⟨[], [], some "connection refused", none⟩
    "connection refused" rfl

/-- C7, as stated, fails: under no configuration input do the dial options
passed to `sso.RegisterAuthHandlerFromEndpoint` use the trusted transport. -/
theorem trusted_transport_not_selectable :
    ¬ ∃ env : Env, (gRPCHundler env).usesMode SecurityMode.trustedTransport := by
  rintro ⟨env, o, ho, d, hd, hm⟩
  rw [gRPCHundler_dialOptions] at ho
  simp only [List.mem_singleton] at ho
  subst ho
  simp only [opts, List.mem_singleton] at hd
  subst hd
  simp [DialOption.mode] at hm

/-- C7, amended: the transport security mode is fixed in the code: under
every configuration input the one registration call receives exactly the
dial options `[grpc.WithTransportCredentials(insecure.NewCredentials())]`, so
the only mode a run uses is the insecure transport. -/
theorem transport_always_insecure (env : Env) (m : SecurityMode) :
    (gRPCHundler env).dialOptions
        = [[DialOption.WithTransportCredentials TransportCredentials.insecureNewCredentials]] ∧
      ((gRPCHundler env).usesMode m ↔ m = SecurityMode.insecureTransport) := by
  refine ⟨gRPCHundler_dialOptions env, ?_⟩
  unfold Run.usesMode
  rw [gRPCHundler_dialOptions]
  constructor
  · rintro ⟨o, ho, d, hd, hm⟩
    simp only [List.mem_singleton] at ho
    subst ho
    simp only [opts, List.mem_singleton] at hd
    subst hd
    rw [← hm]
    rfl
  · intro hm
    subst hm
    exact ⟨opts, List.mem_singleton.2 rfl, _, List.mem_singleton.2 rfl, rfl⟩

/-! ## The error status of the mux -/

/-- C8, as stated, fails: the mux of `gRPCHundler` keeps the default error
handler, and for the code already-exists, which is none of the eight named
ones, it answers 409 where the canonical mapping of the claim says 500. -/
theorem other_code_not_500 :
    (mux lowerCaseToASCII).errorStatus Code.AlreadyExists = 409 ∧
      canonicalStatus Code.AlreadyExists = 500 ∧
      (mux lowerCaseToASCII).errorStatus Code.AlreadyExists
        ≠ canonicalStatus Code.AlreadyExists :=
  ⟨by decide, by decide, by decide⟩

/-- C8, amended: the mux of `gRPCHundler` has no error-handler override and
answers every RPC error code by `runtime.HTTPStatusFromCode`: not-found 404,
invalid-argument 400, permission-denied 403, unauthenticated 401, unavailable
503, deadline-exceeded 504, internal and unknown 500; of the other codes,
data-loss and every code outside the named gRPC codes give 500, canceled 499,
already-exists and aborted 409, resource-exhausted 429, failed-precondition
and out-of-range 400, unimplemented 501 (and the code OK, no error, 200). -/
theorem error_status_table (lowerCase : Char → Char) :
    (mux lowerCase).errorStatus = HTTPStatusFromCode ∧
      (∀ code : Nat,
        code ∉ [Code.OK, Code.Canceled, Code.AlreadyExists, Code.Aborted,
          Code.ResourceExhausted, Code.FailedPrecondition, Code.OutOfRange,
          Code.Unimplemented] →
        (mux lowerCase).errorStatus code = canonicalStatus code) ∧
      (mux lowerCase).errorStatus Code.Canceled = 499 ∧
      (mux lowerCase).errorStatus Code.AlreadyExists = 409 ∧
      (mux lowerCase).errorStatus Code.Aborted = 409 ∧
      (mux lowerCase).errorStatus Code.ResourceExhausted = 429 ∧
      (mux lowerCase).errorStatus Code.FailedPrecondition = 400 ∧
      (mux lowerCase).errorStatus Code.OutOfRange = 400 ∧
      (mux lowerCase).errorStatus Code.Unimplemented = 501 ∧
      (mux lowerCase).errorStatus Code.OK = 200 := by
  have hm : (mux lowerCase).errorStatus = HTTPStatusFromCode := rfl
  refine ⟨hm, ?_, ?_, ?_, ?_, ?_, ?_, ?_, ?_, ?_⟩
  · intro code hcode
    rw [hm]
    simp only [Code.OK, Code.Canceled, Code.AlreadyExists, Code.Aborted,
      Code.ResourceExhausted, Code.FailedPrecondition, Code.OutOfRange,
      Code.Unimplemented, List.mem_cons, List.mem_singleton, List.not_mem_nil,
      or_false, not_or] at hcode
    obtain ⟨h0, h1, h6, h10, h8, h9, h11, h12⟩ := hcode
    by_cases hle : code ≤ 16
    · interval_cases code <;> first | rfl | contradiction
    · have h17 : ∃ n, code = n + 17 := ⟨code - 17, by omega⟩
      obtain ⟨n, rfl⟩ := h17
      have hc : canonicalStatus (n + 17) = 500 := by
        unfold canonicalStatus Code.NotFound Code.InvalidArgument Code.PermissionDenied
          Code.Unauthenticated Code.Unavailable Code.DeadlineExceeded
        have e1 : ¬ n + 17 = 5 := by omega
        have e2 : ¬ n + 17 = 3 := by omega
        have e3 : ¬ n + 17 = 7 := by omega
        have e4 : ¬ n + 17 = 16 := by omega
        have e5 : ¬ n + 17 = 14 := by omega
        have e6 : ¬ n + 17 = 4 := by omega
        simp only [e1, e2, e3, e4, e5, e6, if_false]
      rw [hc]
      rfl
  all_goals rw [hm]; rfl

end HttpAuth
